import Mathlib

/-!
Shallow embedding of the reference-resolution and templating core of
HttpRunner (files `httprunner/testcase.py` and `httprunner/loader.py`).

Python strings are modelled as `List Char`; Python values (the decoded
YAML/JSON data the code traverses) as the inductive type `Value`.
Machine-level details that the claims do not touch (unicode word
characters beyond ASCII, float literals) are modelled for the ASCII
fragment the testcases use.  Fallible code returns `Option`/`Except`.
-/

set_option maxHeartbeats 1000000

namespace HttpRunner

/-- Coerce a Lean string literal to the `List Char` representation used throughout. -/
def str (s : String) : List Char := s.data

/-- Python `\w` for the ASCII fragment: letters, digits and underscore. -/
def isWordChar (c : Char) : Bool :=
  (('a' ≤ c && c ≤ 'z') || ('A' ≤ c && c ≤ 'Z') || ('0' ≤ c && c ≤ '9') || c = '_')

/-- Python `str.strip()` whitespace set (ASCII part). -/
def isPySpace (c : Char) : Bool :=
  c = ' ' || c = '\t' || c = '\n' || c = '\x0d' || c = '\x0b' || c = '\x0c'

/-- Python `str.strip()`: drop leading and trailing whitespace. -/
def pyStrip (s : List Char) : List Char :=
  ((s.dropWhile isPySpace).reverse.dropWhile isPySpace).reverse

/-- Python `s.replace(pat, new, 1)`: replace the first (leftmost) occurrence
of `pat` in `s` by `new`.  The patterns the code uses are nonempty. -/
def replaceFirst (s pat new : List Char) : List Char :=
  match s with
  | [] => []
  | c :: cs =>
    if pat.isPrefixOf (c :: cs) then new ++ (c :: cs).drop pat.length
    else c :: replaceFirst cs pat new

/-- Python `s.replace(pat, new)` (all non-overlapping occurrences, left to
right), with explicit fuel; `pat` is nonempty at every use site. -/
def replaceAllAux (fuel : Nat) (s pat new : List Char) : List Char :=
  match fuel, s with
  | 0, s => s
  | _, [] => []
  | fuel + 1, c :: cs =>
    if pat.isPrefixOf (c :: cs) then new ++ replaceAllAux fuel ((c :: cs).drop pat.length) pat new
    else c :: replaceAllAux fuel cs pat new

def replaceAll (s pat new : List Char) : List Char :=
  replaceAllAux s.length s pat new

/-- Decimal digits of a natural number (little fuel recursion). -/
def natDigitsAux (fuel n : Nat) : List Char :=
  match fuel with
  | 0 => []
  | fuel + 1 =>
    if n < 10 then [Char.ofNat (48 + n)]
    else natDigitsAux fuel (n / 10) ++ [Char.ofNat (48 + n % 10)]

def natToChars (n : Nat) : List Char := natDigitsAux (n + 1) n

/-- Python `str(i)` for an integer. -/
def intToChars (i : Int) : List Char :=
  if i < 0 then '-' :: natToChars i.natAbs else natToChars i.natAbs

/-- Python data values as decoded from YAML/JSON and traversed by the code.
Mapping keys are restricted to strings (`List Char`), which covers every
structure the loader and parser build. -/
inductive Value where
  | vnone
  | vbool (b : Bool)
  | vint (n : Int)
  | vstr (s : List Char)
  | vlist (xs : List Value)
  | vdict (kvs : List (List Char × Value))

mutual

/-- Structural (= Python `==`) equality test on `Value`. -/
def Value.beq : Value → Value → Bool
  | .vnone, b => match b with | .vnone => true | _ => false
  | .vbool a, b => match b with | .vbool b' => a = b' | _ => false
  | .vint a, b => match b with | .vint b' => a = b' | _ => false
  | .vstr a, b => match b with | .vstr b' => a = b' | _ => false
  | .vlist a, b => match b with | .vlist b' => Value.beqList a b' | _ => false
  | .vdict a, b => match b with | .vdict b' => Value.beqPairs a b' | _ => false
termination_by structural v => v

def Value.beqList : List Value → List Value → Bool
  | [], l => match l with | [] => true | _ => false
  | x :: xs, l => match l with
    | y :: ys => Value.beq x y && Value.beqList xs ys
    | [] => false
termination_by structural l => l

def Value.beqPairs : List (List Char × Value) → List (List Char × Value) → Bool
  | [], l => match l with | [] => true | _ => false
  | (k, v) :: xs, l => match l with
    | (k', v') :: ys => k = k' && Value.beq v v' && Value.beqPairs xs ys
    | [] => false
termination_by structural l => l

end

mutual

/-- Python `repr(v)` (scope of the model: strings are repr'd with single
quotes and no escaping, which matches every value the claims touch). -/
def Value.pyRepr : Value → List Char
  | .vnone => HttpRunner.str "None"
  | .vbool b => if b then HttpRunner.str "True" else HttpRunner.str "False"
  | .vint n => HttpRunner.intToChars n
  | .vstr s => '\'' :: s ++ ['\'']
  | .vlist xs => '[' :: Value.pyReprList xs ++ [']']
  | .vdict kvs => '\x7b' :: Value.pyReprPairs kvs ++ ['\x7d']
termination_by structural v => v

def Value.pyReprList : List Value → List Char
  | [] => []
  | [x] => Value.pyRepr x
  | x :: y :: xs => Value.pyRepr x ++ [',', ' '] ++ Value.pyReprList (y :: xs)
termination_by structural l => l

def Value.pyReprPairs : List (List Char × Value) → List Char
  | [] => []
  | [(k, v)] => '\'' :: k ++ ['\''] ++ [':', ' '] ++ Value.pyRepr v
  | (k, v) :: x :: xs =>
    '\'' :: k ++ ['\''] ++ [':', ' '] ++ Value.pyRepr v ++ [',', ' '] ++ Value.pyReprPairs (x :: xs)
termination_by structural l => l

end

/-- Python `str(v)`: identical to `repr` except on strings (no quotes),
`None`, booleans and numbers. -/
def Value.pyStr : Value → List Char
  | .vstr s => s
  | v => Value.pyRepr v

/-- Python truthiness (`if not content:`) for the modelled values. -/
def Value.falsy : Value → Bool
  | .vnone => true
  | .vbool b => !b
  | .vint n => n = 0
  | .vstr s => s.isEmpty
  | .vlist xs => xs.isEmpty
  | .vdict kvs => kvs.isEmpty

/-- Is the value a list or a mapping (`isinstance(content, (list, dict))`)? -/
def Value.isContainer : Value → Bool
  | .vlist _ => true
  | .vdict _ => true
  | _ => false

/-- The string-keyed mappings the code builds (rows of parameters,
test blocks, configs).  Entries are kept in Python-dict insertion order. -/
abbrev Dict := List (List Char × Value)

/-- Python `d[k]` / `d.get(k)`: first entry with the key. -/
def dictGet (d : Dict) (k : List Char) : Option Value :=
  match d with
  | [] => none
  | (k', v) :: rest => if k' = k then some v else dictGet rest k

/-- Python `k in d` for a dict. -/
def dictHasKey (d : Dict) (k : List Char) : Bool :=
  match d with
  | [] => false
  | (k', _) :: rest => k' = k || dictHasKey rest k

/-- Python `d[k] = v`: overwrite in place if the key is present, else append. -/
def assocSet (d : Dict) (p : List Char × Value) : Dict :=
  match d with
  | [] => [p]
  | (k', v') :: rest =>
    if k' = p.1 then (k', p.2) :: rest else (k', v') :: assocSet rest p

/-- Python `d.update(e)`: set every entry of `e` into `d`, in order. -/
def dictUpdate (d e : Dict) : Dict :=
  e.foldl assocSet d

/-- Python `dict(pairs)`. -/
def dictOfPairs (pairs : List (List Char × Value)) : Dict :=
  pairs.foldl assocSet []

/-! ### `testcase.extract_functions`

`function_regexp = r"\$\{([\w_]+\([\$\w\.\-_ =,]*\))\}"`, used with
`re.findall` (non-overlapping matches, left to right).  All the character
classes involved are disjoint from the delimiters that follow them, so the
greedy match is deterministic. -/

/-- The argument character class `[\$\w\.\-_ =,]` of `function_regexp`. -/
def isFuncArgChar (c : Char) : Bool :=
  c = '$' || isWordChar c || c = '.' || c = '-' || c = '_' || c = ' ' || c = '=' || c = ','

/-- Try to match `function_regexp` at the start of `s`; on success return
the captured group `name(args)` and the remainder after the match. -/
def matchFunctionAt (s : List Char) : Option (List Char × List Char) :=
  match s with
  | '$' :: '\x7b' :: rest =>
    let name := rest.takeWhile isWordChar
    let rest1 := rest.dropWhile isWordChar
    if name.isEmpty then none
    else
      match rest1 with
      | '(' :: rest2 =>
        let args := rest2.takeWhile isFuncArgChar
        let rest3 := rest2.dropWhile isFuncArgChar
        match rest3 with
        | ')' :: '\x7d' :: rest4 => some (name ++ '(' :: args ++ [')'], rest4)
        | _ => none
      | _ => none
  | _ => none

def extractFunctionsAux (fuel : Nat) (s : List Char) : List (List Char) :=
  match fuel, s with
  | 0, _ => []
  | _, [] => []
  | fuel + 1, c :: cs =>
    match matchFunctionAt (c :: cs) with
    | some (g, after) => g :: extractFunctionsAux fuel after
    | none => extractFunctionsAux fuel cs

/-- Source `extract_functions(content)`: all `${name(args)}` groups, left to right. -/
def extractFunctions (s : List Char) : List (List Char) :=
  extractFunctionsAux s.length s

/-! ### `parser.extract_variables`

Modelled from the spec: `parser.py` is not part of the viewed source.  Per
§4.2 and the docstring examples of `_eval_content_variables`
(`$var_1#XYZ => "abc#XYZ"`, `/$var_1/$var_2/var3 => "/abc/def/var3"`), a
variable reference is `$` followed by a maximal nonempty run of word
characters (`variable_regexp = r"\$([\w_]+)"` with `re.findall`). -/

def extractVariablesAux (fuel : Nat) (s : List Char) : List (List Char) :=
  match fuel, s with
  | 0, _ => []
  | _, [] => []
  | fuel + 1, c :: cs =>
    if c = '$' then
      let name := cs.takeWhile isWordChar
      if name.isEmpty then extractVariablesAux fuel cs
      else name :: extractVariablesAux fuel (cs.dropWhile isWordChar)
    else extractVariablesAux fuel cs

/-- Modelled from the spec: `parser.extract_variables(content)` (the file `parser.py` is not under the viewed source); all `$name` references, left to right. -/
def extractVariables (s : List Char) : List (List Char) :=
  extractVariablesAux s.length s

/-! ### `parser.parse_function` (Call-Signature Parser) -/

/-- The metadata produced by parsing a call signature. -/
structure FunctionMeta where
  funcName : List Char
  args : List Value
  kwargs : List (List Char × Value)

/-- Modelled from the spec: `parser.parse_string_value` is not part of the
viewed source.  Per §8 (`add(1,2)` is called with the integers 1 and 2) a
numeric argument literal becomes a number; anything else stays a string.
Float literals are outside the model's scope. -/
def parseStringValue (s : List Char) : Value :=
  if s ≠ [] && s.all (fun c => '0' ≤ c && c ≤ '9') then
    .vint (s.foldl (fun n c => n * 10 + (c.toNat - 48)) 0)
  else
    match s with
    | '-' :: rest =>
      if rest ≠ [] && rest.all (fun c => '0' ≤ c && c ≤ '9') then
        .vint (-(rest.foldl (fun n c => n * 10 + (c.toNat - 48)) 0 : Int))
      else .vstr s
    | _ => .vstr s

/-- Split on a separator character (Python `s.split(sep)` for a one-char
separator: empty pieces are kept). -/
def splitOnChar (sep : Char) (s : List Char) : List (List Char) :=
  match s with
  | [] => [[]]
  | c :: cs =>
    let rest := splitOnChar sep cs
    if c = sep then [] :: rest
    else
      match rest with
      | piece :: more => (c :: piece) :: more
      | [] => [[c]]

/-- Modelled from the spec: `parser.parse_function` is not part of the viewed
source.  Per §4.1 it parses `name(arg1, arg2, key=val, ...)` into the
function name, the ordered positional arguments and the keyword mapping; it
is whitespace-insensitive and fails on an empty name or unbalanced
parentheses (hence the body may not itself contain parentheses). -/
def parseFunction (s : List Char) : Option FunctionMeta :=
  let name := s.takeWhile isWordChar
  let rest := s.dropWhile isWordChar
  if name.isEmpty then none
  else
    match rest with
    | '(' :: inner' =>
      match inner'.reverse with
      | ')' :: innerRev =>
        let inner := innerRev.reverse
        if inner.any (fun c => c = '(' || c = ')') then none
        else
          let argsStr := pyStrip inner
          if argsStr.isEmpty then some ⟨name, [], []⟩
          else
            let pieces := (splitOnChar ',' argsStr).map pyStrip
            let step := fun (acc : Option (List Value × List (List Char × Value))) piece =>
              match acc with
              | none => none
              | some (args, kwargs) =>
                match splitOnChar '=' piece with
                | [arg] => some (args ++ [parseStringValue arg], kwargs)
                | [k, v] => some (args, assocSet kwargs (pyStrip k, parseStringValue (pyStrip v)))
                | _ => none
            match pieces.foldl step (some ([], [])) with
            | some (args, kwargs) => some ⟨name, args, kwargs⟩
            | none => none
      | _ => none
    | _ => none

/-! ### `testcase.TestcaseParser` (Expression Evaluator) -/

/-- The evaluation context of a `TestcaseParser`: bound variables and bound
functions.  A bound function receives the (already evaluated) positional
arguments and keyword arguments.  The two external lookup fallbacks of
`_get_bind_item` — `eval(item_name)` over Python builtins and
`utils.search_conf_item` over a per-directory `debugtalk.py` — are
collaborators outside the viewed source and are modelled as absent, so a
name that is not bound here fails with the `ParamsError` of
`_get_bind_item`. -/
structure TestcaseParser where
  vars : List (List Char × Value)
  funcs : List (List Char × (List Value → List (List Char × Value) → Option Value))

/-- Source `get_bind_variable` (without the external fallbacks; `none` is the
`ParamsError "... is not defined in bind variables!"`). -/
def TestcaseParser.getBindVariable (p : TestcaseParser) (name : List Char) : Option Value :=
  (p.vars.find? (fun kv => kv.1 = name)).map (·.2)

/-- Source `get_bind_function` (without the external fallbacks; `none` is the
`ParamsError "... is not defined in bind functions!"`). -/
def TestcaseParser.getBindFunction (p : TestcaseParser) (name : List Char) :
    Option (List Value → List (List Char × Value) → Option Value) :=
  (p.funcs.find? (fun kv => kv.1 = name)).map (·.2)

/-- The loop body of `_eval_content_variables`: iterate over the variable
names extracted from the original string, replacing `$name` by the bound
value (the whole value if the string is exactly `$name`, else its `str()`
spliced over the first occurrence).  A `replace` on a non-string content
mid-loop would raise `AttributeError` in Python and is `none` here. -/
def evalVariablesLoop (p : TestcaseParser) : List (List Char) → Value → Option Value
  | [], content => some content
  | name :: rest, content =>
    match p.getBindVariable name with
    | none => none
    | some v =>
      match content with
      | .vstr s =>
        if s = '$' :: name then evalVariablesLoop p rest v
        else evalVariablesLoop p rest (.vstr (replaceFirst s ('$' :: name) (Value.pyStr v)))
      | _ => none

/-- Source `_eval_content_variables(content)`: `extract_variables` returns `[]` on
a non-string (`TypeError` branch), so non-strings pass through. -/
def evalContentVariables (p : TestcaseParser) (content : Value) : Option Value :=
  match content with
  | .vstr s => evalVariablesLoop p (extractVariables s) (.vstr s)
  | v => some v

/-- The loop body of `_eval_content_functions`, parameterised by the
recursive evaluator `evalF` used on the parsed arguments.  For each
extracted `name(args)`: parse it, evaluate args and kwargs, call the bound
function, then either return the value natively (string was exactly the
call) or splice `str(value)` over the first occurrence of `${name(args)}`.
The built-in `parameterize`/`P` loads a CSV collaborator file and is
outside the model.  A `replace` on a non-string content mid-loop would
raise `AttributeError` in Python and is `none` here. -/
def evalFunctionsLoop (evalF : Value → Option Value) (p : TestcaseParser) :
    List (List Char) → Value → Option Value
  | [], content => some content
  | fc :: rest, content =>
    match parseFunction fc with
    | none => none
    | some meta =>
      match meta.args.mapM evalF with
      | none => none
      | some args =>
        match meta.kwargs.mapM (fun kv =>
            match evalF (.vstr kv.1), evalF kv.2 with
            | some (.vstr ks), some ev => some (ks, ev)
            | _, _ => none) with
        | none => none
        | some kwpairs =>
          let kwargs := dictOfPairs kwpairs
          let callResult :=
            if meta.funcName = str "parameterize" || meta.funcName = str "P" then none
            else
              match p.getBindFunction meta.funcName with
              | none => none
              | some f => f args kwargs
          match callResult with
          | none => none
          | some v =>
            let tok := '$' :: '\x7b' :: (fc ++ ['\x7d'])
            match content with
            | .vstr s =>
              if s = tok then evalFunctionsLoop evalF p rest v
              else evalFunctionsLoop evalF p rest (.vstr (replaceFirst s tok (Value.pyStr v)))
            | _ => none

mutual

/-- Node count of a value; used only to budget the fuel of the evaluator. -/
def Value.size : Value → Nat
  | .vnone | .vbool _ | .vint _ => 1
  | .vstr s => 1 + s.length
  | .vlist xs => 1 + Value.sizeList xs
  | .vdict kvs => 1 + Value.sizePairs kvs
termination_by structural v => v

def Value.sizeList : List Value → Nat
  | [] => 1
  | x :: xs => Value.size x + Value.sizeList xs
termination_by structural l => l

def Value.sizePairs : List (List Char × Value) → Nat
  | [] => 1
  | (k, v) :: xs => k.length + Value.size v + Value.sizePairs xs
termination_by structural l => l

end

/-- Source `eval_content_with_bindings(content)`, with structural fuel.  `None`
and non-string scalars pass through; sequences and mappings are rebuilt
from recursively evaluated members (mapping entries are assigned in order,
so duplicate evaluated keys overwrite); a string is stripped, passed
through the function pass and then the variable pass.  Evaluated mapping
keys must remain strings in this model.  The recursion of the source only
descends through members and through the flat literals `parse_function`
produces, so `Value.size` (plus the wrapper's margin) always covers it. -/
def evalContent (p : TestcaseParser) : Nat → Value → Option Value
  | _, .vnone => some .vnone
  | _, .vint n => some (.vint n)
  | _, .vbool b => some (.vbool b)
  | 0, _ => none
  | fuel + 1, .vlist xs =>
    match xs.mapM (fun x => evalContent p fuel x) with
    | none => none
    | some ys => some (.vlist ys)
  | fuel + 1, .vdict kvs =>
    match kvs.mapM (fun kv =>
        match evalContent p fuel (.vstr kv.1), evalContent p fuel kv.2 with
        | some (.vstr ks), some ev => some (ks, ev)
        | _, _ => none) with
    | none => none
    | some pairs => some (.vdict (dictOfPairs pairs))
  | fuel + 1, .vstr s =>
    let s1 := pyStrip s
    match evalFunctionsLoop (fun x => evalContent p fuel x) p (extractFunctions s1) (.vstr s1) with
    | none => none
    | some c1 => evalContentVariables p c1

/-- Source `eval_content_with_bindings` at an adequate fuel budget. -/
def evalContentWithBindings (p : TestcaseParser) (content : Value) : Option Value :=
  evalContent p (Value.size content + 2) content

/-! ### `testcase.gen_cartesian_product` and `testcase.parse_parameters`
(Parameter Expander) -/

/-- Python `itertools.product(*args)` for lists, in the standard nested-loop order
(leftmost list varies slowest). -/
def pyProduct {α : Type} : List (List α) → List (List α)
  | [] => [[]]
  | l :: ls => l.flatMap (fun x => (pyProduct ls).map (fun t => x :: t))

/-- Source `gen_cartesian_product(*args)`: no axes give `[]`, a single axis is
returned as is, and two or more axes are combined by `itertools.product`,
each tuple merged into one dict by successive `dict.update` (so a later
axis wins on key collision). -/
def genCartesianProduct (args : List (List Dict)) : List Dict :=
  match args with
  | [] => []
  | [l] => l
  | ls => (pyProduct ls).map (fun tuple => tuple.foldl dictUpdate [])

/-- One parameter axis: the single `{name: content}` item of the parameter
dict (`list(parameter.items())[0]`). -/
abbrev Parameter := List Char × Value

/-- Source `parse_parameters(parameters, testset_path)`.  Each axis name splits on
`-` into column names.  A literal list zips each item against the columns
(`dict(zip(...))`, so extra columns or values are silently truncated);
anything else is evaluated with a fresh (empty-binding) `TestcaseParser`
and must produce a list of mappings, projected down to the declared
columns (`none` models `ParamsError`/`KeyError`/`TypeError`). -/
def parseParameters (parameters : List Parameter) : Option (List Dict) :=
  match parameters.mapM (fun param =>
      let nameList := splitOnChar '-' param.1
      match param.2 with
      | .vlist items =>
        some (items.map (fun item =>
          let itemValues := match item with
            | .vlist xs => xs
            | other => [other]
          dictOfPairs (nameList.zip itemValues)))
      | other =>
        match evalContentWithBindings ⟨[], []⟩ other with
        | some (.vlist rows) =>
          rows.mapM (fun row =>
            match row with
            | .vdict kvs =>
              (nameList.mapM (fun k => (dictGet kvs k).map (fun v => (k, v)))).map dictOfPairs
            | _ => none)
        | _ => none) with
  | none => none
  | some parsedParametersList => some (genCartesianProduct parsedParametersList)

/-! ### `loader.py`: file loader -/

/-- The error taxonomy of `httprunner.exceptions` as raised by the loader,
plus `typeError` for the Python-level `TypeError`/`AttributeError`/`KeyError`
crashes reachable on malformed data, and `outOfFuel` for the recursion
budget of the model (never reached on well-formed file systems). -/
inductive LoadErr where
  | fileNotFound
  | fileFormatError
  | paramsError
  | apiNotFound
  | suiteNotFound
  | functionNotFound
  | typeError
  | outOfFuel
  deriving DecidableEq, Repr

/-- What the decoding collaborators (json / yaml / csv libraries, §6 of the
spec) produce for one file on disk.  `jsonData none` is a file whose JSON
decoding fails (`JSONDecodeError`).  A CSV file decodes to its
`csv.DictReader` rows. -/
inductive FileData where
  | jsonData (d : Option Value)
  | yamlData (d : Value)
  | csvData (rows : List Dict)

/-- A file system: path to decoded content.  Absent path = `not os.path.isfile`. -/
abbrev Fs := List (List Char × FileData)

def fsGet (fs : Fs) (path : List Char) : Option FileData :=
  (fs.find? (fun kv => kv.1 = path)).map (·.2)

/-- Python `os.path.splitext(path)[1].lower()`: the extension of the basename,
where the leading dots of the basename never start an extension. -/
def fileSuffix (path : List Char) : List Char :=
  let basename := (splitOnChar '/' path).getLastD []
  let core := basename.dropWhile (fun c => c = '.')
  let rev := core.reverse
  let ext := rev.takeWhile (fun c => c ≠ '.')
  if ext.length = rev.length then []
  else ('.' :: ext.reverse).map Char.toLower

/-- Source `loader._check_format(file_path, content)`: empty (falsy) content or
content that is neither a list nor a mapping is a `FileFormatError`. -/
def checkFormat (content : Value) : Except LoadErr Unit :=
  if content.falsy then .error .fileFormatError
  else if !content.isContainer then .error .fileFormatError
  else .ok ()

/-- Source `loader.load_file(file_path)`: absent file fails `FileNotFound`;
dispatch on the lowercased extension — `.json` and `.yaml`/`.yml` decode
then `_check_format`; `.csv` collects the reader's rows with no format
check; any other extension logs a warning and returns `[]`.  A file whose
stored decoding does not match its extension is outside the model (the
decoders would be handed the same bytes) and maps to `FileFormatError`. -/
def loadFile (fs : Fs) (path : List Char) : Except LoadErr Value :=
  match fsGet fs path with
  | none => .error .fileNotFound
  | some data =>
    let suffix := fileSuffix path
    if suffix = str ".json" then
      match data with
      | .jsonData none => .error .fileFormatError
      | .jsonData (some content) =>
        match checkFormat content with
        | .ok _ => .ok content
        | .error e => .error e
      | _ => .error .fileFormatError
    else if suffix = str ".yaml" || suffix = str ".yml" then
      match data with
      | .yamlData content =>
        match checkFormat content with
        | .ok _ => .ok content
        | .error e => .error e
      | _ => .error .fileFormatError
    else if suffix = str ".csv" then
      match data with
      | .csvData rows => .ok (.vlist (rows.map Value.vdict))
      | _ => .error .fileFormatError
    else
      .ok (.vlist [])

/-! ### `loader.py`: reference resolver (`_get_block_by_name`) -/

/-- The `function_meta` mapping as it is stored inside a definition block
(`api_dict["function_meta"] = function_meta`). -/
def FunctionMeta.toValue (m : FunctionMeta) : Value :=
  .vdict [(str "func_name", .vstr m.funcName),
          (str "args", .vlist m.args),
          (str "kwargs", .vdict m.kwargs)]

/-- The Definition Store `overall_def_dict`: the `"api"` and `"suite"`
registries of loaded definition blocks. -/
structure DefStore where
  api : List (List Char × Value)
  suite : List (List Char × Value)

inductive RefType where
  | api
  | suite
  deriving DecidableEq

def DefStore.get (store : DefStore) (refType : RefType) (name : List Char) : Option Value :=
  let reg := match refType with
    | .api => store.api
    | .suite => store.suite
  (reg.find? (fun kv => kv.1 = name)).map (·.2)

/-- Source `loader._get_test_definition(name, ref_type)`: a missing — or falsy —
stored block raises `ApiNotFound`/`SuiteNotFound` (the source tests
`if not block:`). -/
def getTestDefinition (store : DefStore) (name : List Char) (refType : RefType) :
    Except LoadErr Value :=
  match store.get refType name with
  | some block =>
    if block.falsy then
      .error (match refType with | .api => .apiNotFound | .suite => .suiteNotFound)
    else .ok block
  | none =>
    .error (match refType with | .api => .apiNotFound | .suite => .suiteNotFound)

mutual

/-- Modelled from the spec: `utils.substitute_variables_with_mapping` is not
part of the viewed source.  Per §4.4 step 5 it deep-rewrites every
`$declaredName` reference throughout the definition's structure to the
call-site expression text — a syntactic rewrite on every string of the
structure (mapping keys included), replacing each occurrence of the
declared-parameter text by the call-site text. -/
def substituteVariablesWithMapping (v : Value) (mapping : List (Value × Value)) : Value :=
  match v with
  | .vstr s => .vstr (mapping.foldl (fun acc fromTo =>
      match fromTo.1 with
      | .vstr fromS => replaceAll acc fromS (Value.pyStr fromTo.2)
      | _ => acc) s)
  | .vlist xs => .vlist (substituteList xs mapping)
  | .vdict kvs => .vdict (substitutePairs kvs mapping)
  | other => other
termination_by structural v

def substituteList (xs : List Value) (mapping : List (Value × Value)) : List Value :=
  match xs with
  | [] => []
  | x :: rest => substituteVariablesWithMapping x mapping :: substituteList rest mapping
termination_by structural xs

def substitutePairs (kvs : List (List Char × Value)) (mapping : List (Value × Value)) :
    List (List Char × Value) :=
  match kvs with
  | [] => []
  | (k, v) :: rest =>
    (mapping.foldl (fun acc fromTo =>
      match fromTo.1 with
      | .vstr fromS => replaceAll acc fromS (Value.pyStr fromTo.2)
      | _ => acc) k,
     substituteVariablesWithMapping v mapping) :: substitutePairs rest mapping
termination_by structural kvs

end

/-- Set an entry of the `args_mapping` dict (keys are parsed arg values,
compared with Python `==`). -/
def argsMappingSet (m : List (Value × Value)) (p : Value × Value) : List (Value × Value) :=
  match m with
  | [] => [p]
  | (k, v) :: rest =>
    if Value.beq k p.1 then (k, p.2) :: rest else (k, v) :: argsMappingSet rest p

/-- The `args_mapping` loop of `_get_block_by_name`: for every declared
parameter (in order) whose parsed value differs from the corresponding
call-site argument, record `declared ↦ call-site` into the mapping dict. -/
def buildArgsMappingAux (acc : List (Value × Value)) :
    List Value → List Value → List (Value × Value)
  | [], _ => acc
  | _ :: _, [] => acc
  | defArg :: defRest, callArg :: callRest =>
    buildArgsMappingAux
      (if Value.beq callArg defArg then acc else argsMappingSet acc (defArg, callArg))
      defRest callRest

def buildArgsMapping (defArgs callArgs : List Value) : List (Value × Value) :=
  buildArgsMappingAux [] defArgs callArgs

/-- Source `def_args = block.get("function_meta").get("args", [])`: a block without
a `function_meta` mapping crashes in Python (`None.get`), modelled as
`typeError`. -/
def blockDefArgs (block : Value) : Except LoadErr (List Value) :=
  match block with
  | .vdict kvs =>
    match dictGet kvs (str "function_meta") with
    | some (.vdict fm) =>
      match dictGet fm (str "args") with
      | some (.vlist args) => .ok args
      | some _ => .error .typeError
      | none => .ok []
    | some _ => .error .typeError
    | none => .error .typeError
  | _ => .error .typeError

/-- Source `loader._get_block_by_name(ref_call, ref_type)` (Reference Resolver):
parse the call signature, look the name up in the store, require the
call-site positional-argument count to equal the declared count
(`ParamsError` otherwise), collect the renames, and substitute only when
at least one rename exists — otherwise the stored block itself is
returned. -/
def getBlockByName (store : DefStore) (refCall : List Char) (refType : RefType) :
    Except LoadErr Value :=
  match parseFunction refCall with
  | none => .error .functionNotFound
  | some meta =>
    match getTestDefinition store meta.funcName refType with
    | .error e => .error e
    | .ok block =>
      match blockDefArgs block with
      | .error e => .error e
      | .ok defArgs =>
        if meta.args.length ≠ defArgs.length then .error .paramsError
        else
          let argsMapping := buildArgsMapping defArgs meta.args
          if argsMapping.isEmpty then .ok block
          else .ok (substituteVariablesWithMapping block argsMapping)

/-! ### `loader.load_test_file` (Testset Assembler) -/

/-- The `{config, testcases}` structure assembled from one file. -/
structure Testset where
  config : Dict
  testcases : List Value

/-- Modelled from the spec: `utils._override_block(def_block, test_block)`
is not part of the viewed source.  Per §4.5 the test block's own fields are
applied as overrides on top of the resolved definition, field by field
(block-level fields win).  Both operands are mappings at every use site
(`typeError`-guarded by the caller). -/
def overrideBlock (defBlock testBlock : Dict) : Dict :=
  dictUpdate defBlock testBlock

/-- Python `for item in load_file(file_path)`: iterating a list yields its items,
iterating a mapping yields its keys. -/
def getItems : Value → List Value
  | .vlist xs => xs
  | .vdict kvs => kvs.map (fun kv => Value.vstr kv.1)
  | _ => []

/-- The mapping entries of a value, when it is a mapping (`isinstance(x, dict)`). -/
def asDict : Value → Option Dict
  | .vnone => none
  | .vbool _ => none
  | .vint _ => none
  | .vstr _ => none
  | .vlist _ => none
  | .vdict kvs => some kvs

/-- The characters of a value, when it is a string. -/
def asStr : Value → Option (List Char)
  | .vnone => none
  | .vbool _ => none
  | .vint _ => none
  | .vstr s => some s
  | .vlist _ => none
  | .vdict _ => none

/-- The items of a value, when it is a list. -/
def asList : Value → Option (List Value)
  | .vnone => none
  | .vbool _ => none
  | .vint _ => none
  | .vstr _ => none
  | .vlist xs => some xs
  | .vdict _ => none

/-- Source `block["testcases"]`, required to be a list (`extend` iterates it). -/
def blockTestcases (b : Value) : Option (List Value) :=
  match asDict b with
  | none => none
  | some kvs =>
    match dictGet kvs (str "testcases") with
    | none => none
    | some v => asList v

/-- The block loop of `load_test_file`: every item must be a single-entry
mapping whose value is a mapping (`FileFormatError` otherwise); `config`
entries are merged into the testset config; a `test` block referencing an
`api` is resolved and overridden then appended, one referencing a `suite`
is resolved and its `testcases` list spliced in, and an inline block is
appended as is; any other key is logged and skipped.  (`typeError` marks
the spots where Python would crash on data of an unexpected shape:
a non-string reference call, a non-mapping resolved block, a missing or
non-list `testcases` list.) -/
def processBlocks (store : DefStore) : List Value → Testset → Except LoadErr Testset
  | [], ts => .ok ts
  | item :: rest, ts =>
    match asDict item with
    | none => .error .fileFormatError
    | some itemKvs =>
      match itemKvs with
      | [] => .error .fileFormatError
      | _ :: _ :: _ => .error .fileFormatError
      | [(key, testBlock)] =>
        match asDict testBlock with
        | none => .error .fileFormatError
        | some blockKvs =>
          if key = str "config" then
            processBlocks store rest ⟨dictUpdate ts.config blockKvs, ts.testcases⟩
          else if key = str "test" then
            if dictHasKey blockKvs (str "api") then
              match (dictGet blockKvs (str "api")).bind asStr with
              | none => .error .typeError
              | some refCall =>
                match getBlockByName store refCall .api with
                | .error e => .error e
                | .ok defBlock =>
                  match asDict defBlock with
                  | none => .error .typeError
                  | some defKvs =>
                    processBlocks store rest
                      ⟨ts.config, ts.testcases ++ [.vdict (overrideBlock defKvs blockKvs)]⟩
            else if dictHasKey blockKvs (str "suite") then
              match (dictGet blockKvs (str "suite")).bind asStr with
              | none => .error .typeError
              | some refCall =>
                match getBlockByName store refCall .suite with
                | .error e => .error e
                | .ok suiteBlock =>
                  match blockTestcases suiteBlock with
                  | none => .error .typeError
                  | some suiteTestcases =>
                    processBlocks store rest ⟨ts.config, ts.testcases ++ suiteTestcases⟩
            else
              processBlocks store rest ⟨ts.config, ts.testcases ++ [.vdict blockKvs]⟩
          else
            processBlocks store rest ts

/-- Source `loader.load_test_file(file_path)`: decode the file, then run the block
loop starting from `{"config": {"path": file_path}, "testcases": []}`. -/
def loadTestFile (fs : Fs) (store : DefStore) (filePath : List Char) : Except LoadErr Testset :=
  match loadFile fs filePath with
  | .error e => .error e
  | .ok content =>
    processBlocks store (getItems content) ⟨[(str "path", .vstr filePath)], []⟩

/-! ### `loader.load_testcases` (bulk discovery with per-path cache) -/

/-- The world the loader runs in: the file system, the directory
enumerator (`load_folder_files`, already filtered to `.yml/.yaml/.json`;
a collaborator per §6) and the current working directory. -/
structure World where
  fs : Fs
  dirs : List (List Char × List (List Char))
  cwd : List Char

def World.isFile (w : World) (p : List Char) : Bool := (fsGet w.fs p).isSome

def World.dirList (w : World) (p : List Char) : Option (List (List Char)) :=
  (w.dirs.find? (fun kv => kv.1 = p)).map (·.2)

/-- Python `os.path.isabs` / `os.path.join(os.getcwd(), path)`. -/
def isAbsPath (p : List Char) : Bool :=
  match p with
  | '/' :: _ => true
  | _ => false

def absPath (cwd p : List Char) : List Char :=
  if isAbsPath p then p else cwd ++ '/' :: p

/-- The per-path testset cache `testcases_cache_mapping`. -/
abbrev TcCache := List (List Char × List Testset)

def cacheGet (c : TcCache) (p : List Char) : Option (List Testset) :=
  (c.find? (fun kv => kv.1 = p)).map (·.2)

def cacheSet (c : TcCache) (p : List Char) (v : List Testset) : TcCache :=
  match c with
  | [] => [(p, v)]
  | (k, old) :: rest => if k = p then (k, v) :: rest else (k, old) :: cacheSet rest p v

/-- Python `set(path)` iteration for the list branch of `load_testcases`
(the set deduplicates; its iteration order is unspecified, and every claim
about this loop is order-independent, so the model keeps first-occurrence
order). -/
def dedupPaths (ps : List (List Char)) : List (List Char) :=
  ps.foldl (fun acc p => if acc.contains p then acc else acc ++ [p]) []

/-- The per-path loop of the list branch of `load_testcases`: resolve each
path in turn with `step` (skipping empty results) and concatenate; the
combined result of a list input is not cached. -/
def loadTestcasesListGo
    (step : TcCache → List Char → Except LoadErr (List Testset × TcCache)) :
    TcCache → List (List Char) → Except LoadErr (List Testset × TcCache)
  | c, [] => .ok ([], c)
  | c, path :: rest =>
    match step c path with
    | .error e => .error e
    | .ok (ts, c1) =>
      match loadTestcasesListGo step c1 rest with
      | .error e => .error e
      | .ok (more, c2) => .ok (ts ++ more, c2)

/-- Source `load_testcases(path)` for a single (string) path: make the path
absolute, return the cached entry if present, recurse over a directory's
files, or assemble a single file — catching only `FileFormatError`, which
makes the file contribute `[]`; a file whose assembled testset has no
testcases also contributes `[]`.  The computed result is cached before
returning.  The fuel only bounds the directory recursion depth (Python
recurses unboundedly; any fuel above the depth is exact). -/
def loadTestcasesPath (w : World) (store : DefStore) : Nat → TcCache → List Char →
    Except LoadErr (List Testset × TcCache)
  | fuel, c, path =>
    let p := absPath w.cwd path
    match cacheGet c p with
    | some v => .ok (v, c)
    | none =>
      match fuel with
      | 0 => .error .outOfFuel
      | fuel + 1 =>
        match w.dirList p with
        | some filesList =>
          match loadTestcasesListGo (fun c' p' => loadTestcasesPath w store fuel c' p')
              c (dedupPaths filesList) with
          | .error e => .error e
          | .ok (testcasesList, c1) => .ok (testcasesList, cacheSet c1 p testcasesList)
        | none =>
          if w.isFile p then
            match loadTestFile w.fs store p with
            | .ok testcase =>
              let testcasesList := if testcase.testcases.isEmpty then [] else [testcase]
              .ok (testcasesList, cacheSet c p testcasesList)
            | .error .fileFormatError => .ok ([], cacheSet c p [])
            | .error e => .error e
          else .error .fileNotFound

/-- Source `load_testcases(path)` for a list of paths. -/
def loadTestcasesList (w : World) (store : DefStore) (fuel : Nat) (c : TcCache)
    (ps : List (List Char)) : Except LoadErr (List Testset × TcCache) :=
  loadTestcasesListGo (fun c' p' => loadTestcasesPath w store fuel c' p') c ps

/-- Source `load_testcases(path)`: a list/set input deduplicates and iterates, a
string input resolves directly. -/
inductive PathInput where
  | single (p : List Char)
  | many (ps : List (List Char))

def loadTestcases (w : World) (store : DefStore) (c : TcCache) :
    PathInput → Except LoadErr (List Testset × TcCache)
  | .single p => loadTestcasesPath w store (w.dirs.length + 1) c p
  | .many ps => loadTestcasesList w store (w.dirs.length + 1) c (dedupPaths ps)

/-!
## Theorems

The claims C1–C10 of the specification, settled against the embedding
above.
-/

/-- A `TestcaseParser` with no bound variables and no bound functions. -/
def emptyParser : TestcaseParser := ⟨[], []⟩

theorem evalContent_vstr (p : TestcaseParser) (fuel : Nat) (s : List Char) :
    evalContent p (fuel + 1) (.vstr s) =
      match evalFunctionsLoop (fun x => evalContent p fuel x) p
          (extractFunctions (pyStrip s)) (.vstr (pyStrip s)) with
      | none => none
      | some c1 => evalContentVariables p c1 := rfl

theorem size_vstr_succ (s : List Char) : Value.size (.vstr s) + 2 = (s.length + 2) + 1 := by
  simp [Value.size]
  omega

/-- C10 — `eval_content_with_bindings` strips strings first, so a string
with no function and no variable expression comes back stripped of its
surrounding whitespace; `None` and non-string scalars pass through
unchanged. -/
theorem C10_eval_strip_and_scalar_passthrough (p : TestcaseParser) (s : List Char)
    (hf : extractFunctions (pyStrip s) = [])
    (hv : extractVariables (pyStrip s) = []) :
    evalContentWithBindings p (.vstr s) = some (.vstr (pyStrip s)) ∧
    evalContentWithBindings p .vnone = some .vnone ∧
    (∀ n : Int, evalContentWithBindings p (.vint n) = some (.vint n)) ∧
    (∀ b : Bool, evalContentWithBindings p (.vbool b) = some (.vbool b)) := by
  refine ⟨?_, rfl, fun n => rfl, fun b => rfl⟩
  rw [evalContentWithBindings, size_vstr_succ, evalContent_vstr, hf]
  simp [evalFunctionsLoop, evalContentVariables, hv, evalVariablesLoop]

/-- Witness for C10 at a concrete input. -/
theorem C10_witness :
    extractFunctions (pyStrip (str "  plain text ")) = [] ∧
    extractVariables (pyStrip (str "  plain text ")) = [] ∧
    evalContentWithBindings emptyParser (.vstr (str "  plain text ")) =
      some (.vstr (str "plain text")) ∧
    evalContentWithBindings emptyParser .vnone = some .vnone := by
  refine ⟨by decide, by decide, ?_, ?_⟩
  · exact (C10_eval_strip_and_scalar_passthrough emptyParser (str "  plain text ")
      (by decide) (by decide)).1
  · exact (C10_eval_strip_and_scalar_passthrough emptyParser (str "  plain text ")
      (by decide) (by decide)).2.1

/-- A parser binding `x ↦ "VAL"` and `f() ↦ "$x"` (the function's return
value contains a bare-variable reference). -/
def spliceParser : TestcaseParser :=
  ⟨[(str "x", .vstr (str "VAL"))], [(str "f", fun _ _ => some (.vstr (str "$x")))]⟩

/-- C1 — counterexample.  The claim says a `$name` occurring inside a
function's return value spliced into the string is *not* substituted by
the subsequent variable pass.  With `f() ↦ "$x"` and `x ↦ "VAL"`, the code
evaluates `"pre ${f()} post"` to `"pre VAL post"`: the variable pass does
scan the spliced text, so the result differs from the `"pre $x post"` the
claim predicts. -/
theorem C1_counterexample :
    evalContentWithBindings spliceParser (.vstr (str "pre ${f()} post")) =
      some (.vstr (str "pre VAL post")) ∧
    str "pre VAL post" ≠ str "pre $x post" :=
  ⟨rfl, by decide⟩

/-- C1 — amended.  Within a string, function-call substitution is resolved
before bare-variable substitution, and the spliced text of a function's
return value is never re-scanned for further *function-call* substitution
(part A: `f() ↦ "${g()}"` leaves `${g()}` verbatim and `g` uncalled, for
every bound `g`); but the subsequent variable pass runs over the entire
resulting string, so a `$name` inside a spliced function return value *is*
substituted with the bound value of `name` (part B, for every bound value
`vx`); and a function call introduced by the variable pass is likewise
left unevaluated, confirming the pass order (part C). -/
theorem C1_amended (g : List Value → List (List Char × Value) → Option Value) (vx : Value) :
    evalContentWithBindings
        ⟨[], [(str "f", fun _ _ => some (.vstr (str "${g()}"))), (str "g", g)]⟩
        (.vstr (str "a ${f()} b")) = some (.vstr (str "a ${g()} b")) ∧
    evalContentWithBindings
        ⟨[(str "x", vx)], [(str "f", fun _ _ => some (.vstr (str "$x")))]⟩
        (.vstr (str "pre ${f()} post")) =
      some (.vstr (str "pre " ++ Value.pyStr vx ++ str " post")) ∧
    evalContentWithBindings
        ⟨[(str "x", .vstr (str "${f()}"))], [(str "f", fun _ _ => some (.vint 7))]⟩
        (.vstr (str "$x")) = some (.vstr (str "${f()}")) :=
  ⟨rfl, rfl, rfl⟩

/-- The binding `add(a, b) = a + b` of the spec's §8 example. -/
def addFn : List Value → List (List Char × Value) → Option Value
  | [.vint a, .vint b], _ => some (.vint (a + b))
  | _, _ => none

def addParser : TestcaseParser := ⟨[], [(str "add", addFn)]⟩

/-- C5 — counterexample.  The claim says a string consisting of exactly
one expression evaluates to the bound value with its native type
preserved.  With `f() ↦ "$x"` (a string) and `x ↦ 7`, evaluating
`"${f()}"` returns the integer 7 — the bound value `"$x"` is re-processed
by the variable pass, so the function's value is not what is returned. -/
theorem C5_counterexample :
    evalContentWithBindings
        ⟨[(str "x", .vint 7)], [(str "f", fun _ _ => some (.vstr (str "$x")))]⟩
        (.vstr (str "${f()}")) = some (.vint 7) ∧
    Value.vint 7 ≠ Value.vstr (str "$x") :=
  ⟨rfl, fun h => Value.noConfusion h⟩

/-- C5 — amended.  A string that is exactly one expression evaluates to
the bound value with its native type preserved — unconditionally for a
`$name` variable (part c), and for a `${func(...)}` call provided the
returned value is not a string containing further `$name` references,
which the subsequent variable pass would substitute (part a); in
particular `"${add(1,2)}"` with `add(a,b)=a+b` yields the integer 3
(part b).  An expression embedded in a larger string is stringified with
`str()` and spliced over the matched text (part d), replacing the first
occurrence only, left to right (part e). -/
theorem C5_amended (va vd : Value)
    (hva : match va with | .vstr s => extractVariables s = [] | _ => True)
    (hvd : extractVariables (str "/api/" ++ Value.pyStr vd ++ str "/x") = []) :
    evalContentWithBindings ⟨[], [(str "f", fun _ _ => some va)]⟩
        (.vstr (str "${f()}")) = some va ∧
    evalContentWithBindings addParser (.vstr (str "${add(1,2)}")) = some (.vint 3) ∧
    (∀ v : Value, evalContentWithBindings ⟨[(str "x", v)], []⟩
        (.vstr (str "$x")) = some v) ∧
    evalContentWithBindings ⟨[], [(str "f", fun _ _ => some vd)]⟩
        (.vstr (str "/api/${f()}/x")) =
      some (.vstr (str "/api/" ++ Value.pyStr vd ++ str "/x")) ∧
    evalContentWithBindings ⟨[], [(str "f", fun _ _ => some (.vstr (str "A${f()}")))]⟩
        (.vstr (str "${f()}_${f()}")) = some (.vstr (str "AA${f()}_${f()}")) := by
  refine ⟨?_, rfl, fun v => rfl, ?_, rfl⟩
  · show evalContentVariables _ va = some va
    match va, hva with
    | .vstr s, hva =>
      show evalVariablesLoop _ (extractVariables s) (.vstr s) = some (.vstr s)
      rw [hva]
      rfl
    | .vnone, _ => rfl
    | .vbool _, _ => rfl
    | .vint _, _ => rfl
    | .vlist _, _ => rfl
    | .vdict _, _ => rfl
  · show evalVariablesLoop _
        (extractVariables (str "/api/" ++ Value.pyStr vd ++ str "/x")) _ = _
    rw [hvd]
    rfl

/-- Witness for C5 at concrete inputs: `va = 42` (not a string),
`vd = 3` (`"/api/3/x"` contains no variable reference). -/
theorem C5_amended_witness :
    evalContentWithBindings ⟨[], [(str "f", fun _ _ => some (.vint 42))]⟩
        (.vstr (str "${f()}")) = some (.vint 42) ∧
    evalContentWithBindings ⟨[], [(str "f", fun _ _ => some (.vint 3))]⟩
        (.vstr (str "/api/${f()}/x")) = some (.vstr (str "/api/3/x")) := by
  have h := C5_amended (.vint 42) (.vint 3) trivial (by decide)
  exact ⟨h.1, h.2.2.2.1⟩

/-! Association-list facts used for the cartesian-product claim. -/

theorem assocSet_notMem (d : Dict) (k : List Char) (v : Value)
    (h : k ∉ d.map Prod.fst) : assocSet d (k, v) = d ++ [(k, v)] := by
  induction d with
  | nil => rfl
  | cons p rest ih =>
    obtain ⟨k', v'⟩ := p
    simp only [List.map_cons, List.mem_cons] at h
    push_neg at h
    rw [assocSet, if_neg (fun hh => h.1 hh.symm), ih h.2]
    rfl

theorem foldl_assocSet_disjoint : ∀ (x d : Dict),
    (∀ k, k ∈ x.map Prod.fst → k ∈ d.map Prod.fst → False) →
    (x.map Prod.fst).Nodup →
    x.foldl assocSet d = d ++ x := by
  intro x
  induction x with
  | nil => intro d _ _; simp
  | cons p rest ih =>
    intro d hdisj hnodup
    obtain ⟨k, v⟩ := p
    simp only [List.map_cons, List.nodup_cons] at hnodup
    have hk : k ∉ d.map Prod.fst := fun hmem => hdisj k (List.mem_cons_self k (rest.map Prod.fst)) hmem
    have hdisj' : ∀ k', k' ∈ rest.map Prod.fst → k' ∈ (d ++ [(k, v)]).map Prod.fst → False := by
      intro k' hk'mem hk'in
      simp only [List.map_append, List.mem_append, List.map_cons, List.map_nil,
        List.mem_cons, List.not_mem_nil, or_false] at hk'in
      rcases hk'in with hk'in | hk'in
      · exact hdisj k' (List.mem_cons_of_mem k hk'mem) hk'in
      · exact hnodup.1 (hk'in ▸ hk'mem)
    rw [List.foldl_cons, assocSet_notMem d k v hk, ih (d ++ [(k, v)]) hdisj' hnodup.2]
    simp

theorem dictUpdate_nil_of_nodup (x : Dict) (h : (x.map Prod.fst).Nodup) :
    dictUpdate [] x = x := by
  have := foldl_assocSet_disjoint x [] (fun k _ hk => absurd hk (List.not_mem_nil k)) h
  simpa [dictUpdate] using this

/-- C2 — `parse_parameters` / `gen_cartesian_product`.  The concrete axes
`[{"a":[1,2]}, {"x-y":[[10,11],[20,21]]}]` expand to exactly the four rows
in the claimed order; zero axes yield the empty result; a single axis is
passed through without taking a product; a later axis wins on key
collision; and for any number of axes the rows combine in the standard
nested-loop order (leftmost axis slowest), each row built by updating the
leftmost dict with the later axes' dicts in order. -/
theorem C2_parse_parameters_cartesian :
    (parseParameters
      [(str "a", .vlist [.vint 1, .vint 2]),
       (str "x-y", .vlist [.vlist [.vint 10, .vint 11], .vlist [.vint 20, .vint 21]])] =
      some [
        [(str "a", .vint 1), (str "x", .vint 10), (str "y", .vint 11)],
        [(str "a", .vint 1), (str "x", .vint 20), (str "y", .vint 21)],
        [(str "a", .vint 2), (str "x", .vint 10), (str "y", .vint 11)],
        [(str "a", .vint 2), (str "x", .vint 20), (str "y", .vint 21)]]) ∧
    genCartesianProduct [] = [] ∧
    (∀ l : List Dict, genCartesianProduct [l] = l) ∧
    (genCartesianProduct [[[(str "a", .vint 1)]], [[(str "a", .vint 2)]]] =
      [[(str "a", .vint 2)]]) ∧
    (∀ (l : List Dict) (ls : List (List Dict)), ls ≠ [] →
      (∀ d ∈ l, (d.map Prod.fst).Nodup) →
      genCartesianProduct (l :: ls) =
        l.flatMap (fun d => (pyProduct ls).map (fun t => t.foldl dictUpdate d))) := by
  refine ⟨rfl, rfl, fun l => rfl, rfl, ?_⟩
  intro l ls hls hl
  obtain ⟨m, ls', rfl⟩ : ∃ m ls', ls = m :: ls' := by
    cases ls with
    | nil => exact absurd rfl hls
    | cons m ls' => exact ⟨m, ls', rfl⟩
  clear hls
  induction l with
  | nil => rfl
  | cons x l' ih =>
    have hx : (x.map Prod.fst).Nodup := hl x (by simp)
    have hl' : ∀ d ∈ l', (d.map Prod.fst).Nodup := fun d hd => hl d (by simp [hd])
    have hpy : pyProduct ((x :: l') :: m :: ls') =
        ((pyProduct (m :: ls')).map (fun t => x :: t)) ++ pyProduct (l' :: m :: ls') := by
      rw [pyProduct, List.flatMap_cons]
      rfl
    have hgen : genCartesianProduct ((x :: l') :: m :: ls') =
        (pyProduct ((x :: l') :: m :: ls')).map (fun t => t.foldl dictUpdate []) := rfl
    rw [hgen, hpy, List.map_append, List.map_map]
    have hfirst : (pyProduct (m :: ls')).map ((fun t => t.foldl dictUpdate []) ∘ (fun t => x :: t)) =
        (pyProduct (m :: ls')).map (fun t => t.foldl dictUpdate x) := by
      apply List.map_congr_left
      intro t _
      show (x :: t).foldl dictUpdate [] = t.foldl dictUpdate x
      rw [List.foldl_cons, dictUpdate_nil_of_nodup x hx]
    rw [hfirst, List.flatMap_cons, ← ih hl']
    rfl

/-- Witness for C2: the quantified conjuncts at concrete axes
`[{"a": 1}]` and `[{"b": 2}]`, hypotheses discharged. -/
theorem C2_cartesian_witness :
    ([[[(str "b", Value.vint 2)]]] : List (List Dict)) ≠ [] ∧
    (∀ d ∈ ([[(str "a", Value.vint 1)]] : List Dict), (d.map Prod.fst).Nodup) ∧
    genCartesianProduct [[[(str "a", .vint 1)]], [[(str "b", .vint 2)]]] =
      [[(str "a", .vint 1), (str "b", .vint 2)]] := by
  have h := C2_parse_parameters_cartesian.2.2.2.2
    [[(str "a", Value.vint 1)]] [[[(str "b", Value.vint 2)]]]
    (List.cons_ne_nil _ _) (by decide)
  exact ⟨List.cons_ne_nil _ _, by decide, h.trans rfl⟩

/-! ### C3 / C4: the Reference Resolver's argument handling -/

mutual

theorem beqRefl : (v : Value) → Value.beq v v = true
  | .vnone => rfl
  | .vbool b => by simp [Value.beq]
  | .vint n => by simp [Value.beq]
  | .vstr s => by simp [Value.beq]
  | .vlist xs => beqListRefl xs
  | .vdict kvs => beqPairsRefl kvs
termination_by structural v => v

theorem beqListRefl : (l : List Value) → Value.beqList l l = true
  | [] => rfl
  | x :: xs => by
    show (Value.beq x x && Value.beqList xs xs) = true
    rw [beqRefl x, beqListRefl xs]
    rfl
termination_by structural l => l

theorem beqPairsRefl : (l : List (List Char × Value)) → Value.beqPairs l l = true
  | [] => rfl
  | (k, v) :: xs => by
    show (decide (k = k) && Value.beq v v && Value.beqPairs xs xs) = true
    rw [beqRefl v, beqPairsRefl xs]
    simp
termination_by structural l => l

end

theorem beq_refl (v : Value) : Value.beq v v = true := beqRefl v

/-- The `args_mapping` stays empty when every call-site argument equals the
declared one. -/
theorem buildArgsMapping_self (args : List Value) : buildArgsMapping args args = [] := by
  show buildArgsMappingAux [] args args = []
  induction args with
  | nil => rfl
  | cons a rest ih =>
    rw [buildArgsMappingAux, beq_refl a]
    exact ih

/-- C3 — for every reference resolution whose call signature parses and
whose name is stored: a positional-argument count differing from the
declared count fails with `ParamsError`, for every such pair of counts;
equal counts never produce the arg-count error (resolution succeeds). -/
theorem C3_arg_count_check (store : DefStore) (refType : RefType) (refCall : List Char)
    (meta : FunctionMeta) (block : Value) (defArgs : List Value)
    (hparse : parseFunction refCall = some meta)
    (hdef : getTestDefinition store meta.funcName refType = .ok block)
    (hargs : blockDefArgs block = .ok defArgs) :
    (meta.args.length ≠ defArgs.length →
      getBlockByName store refCall refType = .error .paramsError) ∧
    (meta.args.length = defArgs.length →
      ∃ b, getBlockByName store refCall refType = .ok b) := by
  constructor
  · intro hne
    simp only [getBlockByName, hparse, hdef, hargs]
    rw [if_pos hne]
  · intro heq
    simp only [getBlockByName, hparse, hdef, hargs]
    rw [if_neg (by simp [heq])]
    by_cases hmap : (buildArgsMapping defArgs meta.args).isEmpty
    · rw [if_pos hmap]; exact ⟨block, rfl⟩
    · rw [if_neg hmap]; exact ⟨_, rfl⟩

/-- A two-parameter api definition block used by the resolver witnesses. -/
def loginBlock : Value :=
  .vdict [(str "function_meta",
    (FunctionMeta.mk (str "api_login")
      [.vstr (str "$user"), .vstr (str "$pwd")] []).toValue),
    (str "request", .vdict [(str "url", .vstr (str "/login/$user"))])]

def loginStore : DefStore := ⟨[(str "api_login", loginBlock)], []⟩

/-- Witness for C3: `api_login` declares 2 parameters; a 1-argument call
fails with `ParamsError`. -/
theorem C3_arg_count_witness :
    parseFunction (str "api_login($a)") =
      some ⟨str "api_login", [.vstr (str "$a")], []⟩ ∧
    getBlockByName loginStore (str "api_login($a)") .api = .error .paramsError := by
  refine ⟨rfl, ?_⟩
  exact (C3_arg_count_check loginStore .api (str "api_login($a)")
    ⟨str "api_login", [.vstr (str "$a")], []⟩ loginBlock
    [.vstr (str "$user"), .vstr (str "$pwd")] rfl rfl rfl).1 (by decide)

/-- C4 — when every call-site positional argument is identical to the
corresponding declared parameter, `_get_block_by_name` skips the
substitution entirely and returns the stored definition block itself,
unmodified. -/
theorem C4_verbatim_args_return_definition (store : DefStore) (refType : RefType)
    (refCall : List Char) (meta : FunctionMeta) (block : Value)
    (hparse : parseFunction refCall = some meta)
    (hdef : getTestDefinition store meta.funcName refType = .ok block)
    (hargs : blockDefArgs block = .ok meta.args) :
    getBlockByName store refCall refType = .ok block := by
  simp only [getBlockByName, hparse, hdef, hargs]
  rw [if_neg (by simp), if_pos (by rw [buildArgsMapping_self]; rfl)]

/-- Witness for C4: calling `api_login($user, $pwd)` against a definition
declaring `($user, $pwd)` returns the stored block itself. -/
theorem C4_verbatim_args_witness :
    getBlockByName loginStore (str "api_login($user, $pwd)") .api = .ok loginBlock :=
  C4_verbatim_args_return_definition loginStore .api (str "api_login($user, $pwd)")
    ⟨str "api_login", [.vstr (str "$user"), .vstr (str "$pwd")], []⟩ loginBlock rfl rfl rfl

/-! ### C6: `load_file` error behaviour -/

/-- C6 — counterexample.  The claim says empty decoded content fails
`FileFormatError` for every supported extension *including `.csv`*; but
`load_csv_file` never calls `_check_format`, so a present `.csv` file with
zero data rows loads successfully as `[]`. -/
theorem C6_counterexample :
    loadFile [(str "/t/empty.csv", .csvData [])] (str "/t/empty.csv") = .ok (.vlist []) ∧
    (Except.ok (.vlist []) : Except LoadErr Value) ≠ .error .fileFormatError :=
  ⟨rfl, fun h => Except.noConfusion h⟩

/-- C6 — amended.  `load_file`: an absent file fails `FileNotFound`; for
`.json` a decode failure, and for `.json`/`.yaml`/`.yml` empty (falsy) or
non-list/non-mapping decoded content, fail `FileFormatError`; a present
`.csv` file always loads to its list of rows with no format check (so an
empty `.csv` yields `[]` and no error); an unknown or missing extension
yields the empty result `[]` with a logged warning and raises no error. -/
theorem C6_load_file_errors (fs : Fs) (path : List Char) :
    (fsGet fs path = none → loadFile fs path = .error .fileNotFound) ∧
    (fsGet fs path = some (.jsonData none) → fileSuffix path = str ".json" →
      loadFile fs path = .error .fileFormatError) ∧
    (∀ v, fsGet fs path = some (.jsonData (some v)) → fileSuffix path = str ".json" →
      (v.falsy = true ∨ v.isContainer = false) →
      loadFile fs path = .error .fileFormatError) ∧
    (∀ v, fsGet fs path = some (.yamlData v) →
      (fileSuffix path = str ".yaml" ∨ fileSuffix path = str ".yml") →
      (v.falsy = true ∨ v.isContainer = false) →
      loadFile fs path = .error .fileFormatError) ∧
    (∀ rows, fsGet fs path = some (.csvData rows) → fileSuffix path = str ".csv" →
      loadFile fs path = .ok (.vlist (rows.map Value.vdict))) ∧
    (∀ data, fsGet fs path = some data →
      fileSuffix path ≠ str ".json" → fileSuffix path ≠ str ".yaml" →
      fileSuffix path ≠ str ".yml" → fileSuffix path ≠ str ".csv" →
      loadFile fs path = .ok (.vlist [])) := by
  have hcheck : ∀ v : Value, v.falsy = true ∨ v.isContainer = false →
      checkFormat v = .error .fileFormatError := by
    intro v hv
    by_cases hf : v.falsy = true
    · rw [checkFormat, if_pos hf]
    · rcases hv with hv | hv
      · exact absurd hv hf
      · rw [checkFormat, if_neg hf, if_pos (by simp [hv])]
  refine ⟨?_, ?_, ?_, ?_, ?_, ?_⟩
  · intro h
    rw [loadFile, h]
  · intro h hs
    rw [loadFile, h]
    simp only [hs]
    rfl
  · intro v h hs hv
    rw [loadFile, h]
    simp only [hs]
    have : checkFormat v = .error .fileFormatError := hcheck v hv
    rw [this]
    rfl
  · intro v h hs hv
    have hc : checkFormat v = .error .fileFormatError := hcheck v hv
    rcases hs with hs | hs
    all_goals
      rw [loadFile, h]
      simp only [hs]
      rw [hc]
      rfl
  · intro rows h hs
    rw [loadFile, h]
    simp only [hs]
    rfl
  · intro data h h1 h2 h3 h4
    simp only [loadFile, h]
    rw [if_neg h1, if_neg (by simp [h2, h3]), if_neg h4]

/-- Witness for C6 at a concrete file system. -/
theorem C6_load_file_witness :
    loadFile [(str "/t/rows.csv", .csvData [[(str "u", .vstr (str "test1"))]])]
      (str "/t/absent.json") = .error .fileNotFound ∧
    loadFile [(str "/t/empty2.csv", .csvData [])] (str "/t/empty2.csv") = .ok (.vlist []) ∧
    loadFile [(str "/t/scalar.yaml", .yamlData (.vint 5))] (str "/t/scalar.yaml") =
      .error .fileFormatError ∧
    loadFile [(str "/t/noext", .jsonData none)] (str "/t/noext") = .ok (.vlist []) := by
  refine ⟨?_, ?_, ?_, ?_⟩
  · exact (C6_load_file_errors
      [(str "/t/rows.csv", .csvData [[(str "u", .vstr (str "test1"))]])]
      (str "/t/absent.json")).1 rfl
  · exact ((C6_load_file_errors [(str "/t/empty2.csv", .csvData [])]
      (str "/t/empty2.csv")).2.2.2.2.1 [] rfl rfl).trans rfl
  · exact (C6_load_file_errors [(str "/t/scalar.yaml", .yamlData (.vint 5))]
      (str "/t/scalar.yaml")).2.2.2.1 (.vint 5) rfl (Or.inl rfl) (Or.inr rfl)
  · exact (C6_load_file_errors [(str "/t/noext", .jsonData none)]
      (str "/t/noext")).2.2.2.2.2 (.jsonData none) rfl
      (by decide) (by decide) (by decide) (by decide)

/-! ### C7: assembled testsets and raw `suite` blocks -/

/-- A testcase entry that is not a mapping carrying a `suite` key. -/
def blockFreeOfSuite (b : Value) : Bool :=
  match b with
  | .vdict kvs => !(dictHasKey kvs (str "suite"))
  | _ => true

/-- Does some assembled testcase still carry a raw `suite` key? -/
def testsetHasRawSuite (ts : Testset) : Bool :=
  ts.testcases.any (fun b => !(blockFreeOfSuite b))

theorem dictHasKey_assocSet (a : Dict) (pk : List Char) (pv : Value) (k : List Char) :
    dictHasKey (assocSet a (pk, pv)) k = (dictHasKey a k || decide (pk = k)) := by
  induction a with
  | nil => simp [assocSet, dictHasKey]
  | cons q rest ih =>
    obtain ⟨k', v'⟩ := q
    by_cases hq : k' = pk
    · subst hq
      rw [assocSet, if_pos rfl]
      by_cases hk : k' = k
      · simp [dictHasKey, hk]
      · simp [dictHasKey, hk]
    · rw [assocSet, if_neg hq]
      simp [dictHasKey, ih, Bool.or_assoc]

theorem dictHasKey_dictUpdate (a b : Dict) (k : List Char) :
    dictHasKey (dictUpdate a b) k = (dictHasKey a k || dictHasKey b k) := by
  induction b generalizing a with
  | nil => simp [dictUpdate, dictHasKey]
  | cons p rest ih =>
    obtain ⟨pk, pv⟩ := p
    show dictHasKey (dictUpdate (assocSet a (pk, pv)) rest) k = _
    rw [ih (assocSet a (pk, pv)), dictHasKey_assocSet]
    simp [dictHasKey, Bool.or_assoc]

/-- The single-test-block input whose test block carries both an `api` and
a `suite` key. -/
def bothKeysItems : List Value :=
  [.vdict [(str "test", .vdict [
    (str "api", .vstr (str "a()")),
    (str "suite", .vstr (str "s()")),
    (str "name", .vstr (str "both"))])]]

def bothKeysStore : DefStore :=
  ⟨[(str "a", .vdict [
      (str "function_meta", (FunctionMeta.mk (str "a") [] []).toValue),
      (str "request", .vdict [(str "url", .vstr (str "/a"))])])], []⟩

/-- C7 — counterexample.  The claim says a `test` block containing a
`suite` key is always replaced by splicing, so no raw `suite` block
remains.  But the `api` branch is checked first: a test block carrying
*both* keys is resolved as an api reference and appended with its literal
`suite` field intact, so the assembled testset does contain a raw `suite`
key. -/
theorem C7_counterexample :
    (match processBlocks bothKeysStore bothKeysItems
        ⟨[(str "path", .vstr (str "/t/x.yml"))], []⟩ with
     | .ok ts => testsetHasRawSuite ts
     | .error _ => false) = true := rfl

/-- C7 — amended.  In an assembled testset, every testcase appended for a
`test` block that carries a `suite` key *without* an `api` key is replaced
by splicing the referenced suite's testcases; consequently, whenever no
test block of the file carries both keys at once, every api-resolved block
is suite-free and every referenced suite's testcases are suite-free, the
assembled testcases list contains no raw `suite` block. -/
theorem C7_no_raw_suite_blocks (store : DefStore) (items : List Value) :
    ∀ (ts0 ts' : Testset),
    (∀ b ∈ ts0.testcases, blockFreeOfSuite b = true) →
    (∀ key kvs, Value.vdict [(key, Value.vdict kvs)] ∈ items → key = str "test" →
      dictHasKey kvs (str "api") = true → dictHasKey kvs (str "suite") = false) →
    (∀ refCall b, getBlockByName store refCall .api = .ok b → blockFreeOfSuite b = true) →
    (∀ refCall b tcs, getBlockByName store refCall .suite = .ok b →
      blockTestcases b = some tcs →
      ∀ x ∈ tcs, blockFreeOfSuite x = true) →
    processBlocks store items ts0 = .ok ts' →
    ∀ b ∈ ts'.testcases, blockFreeOfSuite b = true := by
  induction items with
  | nil =>
    intro ts0 ts' hts0 _ _ _ hrun
    rw [processBlocks] at hrun
    cases hrun
    exact hts0
  | cons item rest ih =>
    intro ts0 ts' hts0 hboth hapi hsuite hrun
    have hbothRest : ∀ key kvs, Value.vdict [(key, Value.vdict kvs)] ∈ rest →
        key = str "test" → dictHasKey kvs (str "api") = true →
        dictHasKey kvs (str "suite") = false :=
      fun key kvs hmem => hboth key kvs (List.mem_cons_of_mem _ hmem)
    rw [processBlocks] at hrun
    cases had : asDict item with
    | none => simp only [had] at hrun; cases hrun
    | some itemKvs =>
      simp only [had] at hrun
      cases itemKvs with
      | nil => cases hrun
      | cons p tail =>
        cases tail with
        | cons q tail2 => cases hrun
        | nil =>
          obtain ⟨key, testBlock⟩ := p
          have hitem : item = Value.vdict [(key, testBlock)] := by
            cases item <;> simp [asDict] at had
            rw [had]
          cases hbd : asDict testBlock with
          | none => simp only [hbd] at hrun; cases hrun
          | some blockKvs =>
            have hblock : testBlock = Value.vdict blockKvs := by
              cases testBlock <;> simp [asDict] at hbd
              rw [hbd]
            simp only [hbd] at hrun
            by_cases hkey : key = str "config"
            · rw [if_pos hkey] at hrun
              exact ih ⟨dictUpdate ts0.config blockKvs, ts0.testcases⟩ ts'
                hts0 hbothRest hapi hsuite hrun
            · rw [if_neg hkey] at hrun
              by_cases htest : key = str "test"
              · rw [if_pos htest] at hrun
                by_cases hhasApi : dictHasKey blockKvs (str "api") = true
                · rw [if_pos hhasApi] at hrun
                  have hnosuite : dictHasKey blockKvs (str "suite") = false := by
                    apply hboth key blockKvs ?_ htest hhasApi
                    rw [← hblock, ← hitem]
                    exact List.mem_cons_self _ _
                  cases hget : (dictGet blockKvs (str "api")).bind asStr with
                  | none => simp only [hget] at hrun; cases hrun
                  | some refCall =>
                    simp only [hget] at hrun
                    cases hres : getBlockByName store refCall .api with
                    | error e => simp only [hres] at hrun; cases hrun
                    | ok defBlock =>
                      simp only [hres] at hrun
                      cases hdd : asDict defBlock with
                      | none => simp only [hdd] at hrun; cases hrun
                      | some defKvs =>
                        simp only [hdd] at hrun
                        have hdefBlock : defBlock = Value.vdict defKvs := by
                          cases defBlock <;> simp [asDict] at hdd
                          rw [hdd]
                        have hfree : blockFreeOfSuite (.vdict defKvs) = true := by
                          rw [← hdefBlock]
                          exact hapi refCall defBlock hres
                        refine ih _ _ ?_ hbothRest hapi hsuite hrun
                        intro b hb
                        rcases List.mem_append.mp hb with hb | hb
                        · exact hts0 b hb
                        · rcases List.mem_singleton.mp hb with rfl
                          show (!(dictHasKey (overrideBlock defKvs blockKvs) (str "suite"))) = true
                          rw [overrideBlock, dictHasKey_dictUpdate, hnosuite]
                          simpa [blockFreeOfSuite] using hfree
                · rw [if_neg hhasApi] at hrun
                  by_cases hhasSuite : dictHasKey blockKvs (str "suite") = true
                  · rw [if_pos hhasSuite] at hrun
                    cases hget : (dictGet blockKvs (str "suite")).bind asStr with
                    | none => simp only [hget] at hrun; cases hrun
                    | some refCall =>
                      simp only [hget] at hrun
                      cases hres : getBlockByName store refCall .suite with
                      | error e => simp only [hres] at hrun; cases hrun
                      | ok suiteBlock =>
                        simp only [hres] at hrun
                        cases htcs : blockTestcases suiteBlock with
                        | none => simp only [htcs] at hrun; cases hrun
                        | some suiteTestcases =>
                          simp only [htcs] at hrun
                          refine ih _ _ ?_ hbothRest hapi hsuite hrun
                          intro b hb
                          rcases List.mem_append.mp hb with hb | hb
                          · exact hts0 b hb
                          · exact hsuite refCall suiteBlock suiteTestcases hres htcs b hb
                  · rw [if_neg hhasSuite] at hrun
                    refine ih _ _ ?_ hbothRest hapi hsuite hrun
                    intro b hb
                    rcases List.mem_append.mp hb with hb | hb
                    · exact hts0 b hb
                    · rcases List.mem_singleton.mp hb with rfl
                      have hfalse : dictHasKey blockKvs (str "suite") = false := by
                        cases hsk : dictHasKey blockKvs (str "suite")
                        · rfl
                        · exact absurd hsk hhasSuite
                      show (!(dictHasKey blockKvs (str "suite"))) = true
                      rw [hfalse]
                      rfl
              · rw [if_neg htest] at hrun
                exact ih _ _ hts0 hbothRest hapi hsuite hrun

/-- A stored suite definition with two (suite-free) resolved testcases. -/
def spliceSuiteBlock : Value :=
  .vdict [(str "function_meta", (FunctionMeta.mk (str "suite_checkout") [] []).toValue),
          (str "config", .vdict [(str "name", .vstr (str "checkout"))]),
          (str "testcases", .vlist [
            .vdict [(str "name", .vstr (str "step1"))],
            .vdict [(str "name", .vstr (str "step2"))]])]

def spliceStore : DefStore := ⟨[], [(str "suite_checkout", spliceSuiteBlock)]⟩

def spliceItems : List Value :=
  [.vdict [(str "test", .vdict [(str "suite", .vstr (str "suite_checkout()"))])]]

theorem spliceStore_api_fails (refCall : List Char) (b : Value) :
    getBlockByName spliceStore refCall .api = .ok b → False := by
  intro h
  rw [getBlockByName] at h
  cases hp : parseFunction refCall with
  | none => simp only [hp] at h; cases h
  | some meta => simp only [hp] at h; cases h

theorem spliceStore_suite_resolves (refCall : List Char) (b : Value) :
    getBlockByName spliceStore refCall .suite = .ok b → b = spliceSuiteBlock := by
  intro h
  rw [getBlockByName] at h
  cases hp : parseFunction refCall with
  | none => simp only [hp] at h; cases h
  | some meta =>
    simp only [hp] at h
    by_cases hname : str "suite_checkout" = meta.funcName
    · have hget : spliceStore.get .suite meta.funcName = some spliceSuiteBlock := by
        show (List.find? (fun kv => kv.1 = meta.funcName)
            [(str "suite_checkout", spliceSuiteBlock)]).map (fun kv => kv.2) =
          some spliceSuiteBlock
        rw [List.find?_cons_of_pos _ (by simpa using hname)]
        rfl
      have hdef : getTestDefinition spliceStore meta.funcName .suite = .ok spliceSuiteBlock := by
        rw [getTestDefinition, hget]
        rfl
      simp only [hdef] at h
      have hargs : blockDefArgs spliceSuiteBlock = .ok [] := rfl
      simp only [hargs, List.length_nil] at h
      by_cases hlen : meta.args.length = 0
      · rw [if_neg (fun hh => hh hlen)] at h
        rw [if_pos (show (buildArgsMapping [] meta.args).isEmpty = true from rfl)] at h
        cases h
        rfl
      · rw [if_pos hlen] at h
        cases h
    · have hget : spliceStore.get .suite meta.funcName = none := by
        show (List.find? (fun kv => kv.1 = meta.funcName)
            [(str "suite_checkout", spliceSuiteBlock)]).map (fun kv => kv.2) = none
        rw [List.find?_cons_of_neg _ (by simpa using hname)]
        rfl
      have hdef : getTestDefinition spliceStore meta.funcName .suite =
          .error .suiteNotFound := by
        rw [getTestDefinition, hget]
      simp only [hdef] at h
      cases h

/-- Witness for C7: a testset whose single test block references the suite
is assembled by splicing the suite's two testcases, and (by the amended
theorem) the assembled testcases carry no raw `suite` key. -/
theorem C7_no_raw_suite_witness :
    processBlocks spliceStore spliceItems ⟨[(str "path", .vstr (str "/t/m.yml"))], []⟩ =
      .ok ⟨[(str "path", .vstr (str "/t/m.yml"))],
        [.vdict [(str "name", .vstr (str "step1"))],
         .vdict [(str "name", .vstr (str "step2"))]]⟩ ∧
    (∀ b ∈ [Value.vdict [(str "name", .vstr (str "step1"))],
            Value.vdict [(str "name", .vstr (str "step2"))]],
      blockFreeOfSuite b = true) := by
  have hrun : processBlocks spliceStore spliceItems
      ⟨[(str "path", .vstr (str "/t/m.yml"))], []⟩ =
      .ok ⟨[(str "path", .vstr (str "/t/m.yml"))],
        [.vdict [(str "name", .vstr (str "step1"))],
         .vdict [(str "name", .vstr (str "step2"))]]⟩ := rfl
  refine ⟨hrun, ?_⟩
  refine C7_no_raw_suite_blocks spliceStore spliceItems
    ⟨[(str "path", .vstr (str "/t/m.yml"))], []⟩ _
    (fun b hb => absurd hb (List.not_mem_nil b)) ?_ ?_ ?_ hrun
  · intro key kvs hmem htest happ
    have heq := List.mem_singleton.mp hmem
    simp only [Value.vdict.injEq, List.cons.injEq, Prod.mk.injEq, and_true] at heq
    obtain ⟨hk, hv⟩ := heq
    rw [hv] at happ
    exact absurd happ (by decide)
  · intro refCall b h
    exact absurd h (fun hh => spliceStore_api_fails refCall b hh)
  · intro refCall b tcs h htcs x hx
    have hb := spliceStore_suite_resolves refCall b h
    subst hb
    have : tcs = [Value.vdict [(str "name", .vstr (str "step1"))],
                  Value.vdict [(str "name", .vstr (str "step2"))]] := by
      have hc : blockTestcases spliceSuiteBlock =
          some [Value.vdict [(str "name", .vstr (str "step1"))],
                Value.vdict [(str "name", .vstr (str "step2"))]] := rfl
      rw [hc] at htcs
      injection htcs with h1
      exact h1.symm
    subst this
    cases hx with
    | head => rfl
    | tail _ hx2 =>
      cases hx2 with
      | head => rfl
      | tail _ hx3 => exact absurd hx3 (List.not_mem_nil x)

/-! ### C8 / C9: `load_testcases`, its swallow point and its cache -/

theorem cacheGet_cacheSet_self (c : TcCache) (p : List Char) (v : List Testset) :
    cacheGet (cacheSet c p v) p = some v := by
  induction c with
  | nil => simp [cacheSet, cacheGet, List.find?]
  | cons q rest ih =>
    obtain ⟨k, old⟩ := q
    by_cases hk : k = p
    · subst hk
      simp [cacheSet, cacheGet, List.find?]
    · rw [cacheSet, if_neg hk]
      show cacheGet ((k, old) :: cacheSet rest p v) p = some v
      rw [cacheGet]
      show (List.find? _ _).map _ = _
      rw [List.find?_cons_of_neg _ (by simpa using hk)]
      exact ih

/-- C8 — within `load_testcases`: a `FileFormatError` raised while
assembling one file is caught, and the file contributes the empty
testcases list while the rest of the batch continues; every other
exception propagates uncaught and aborts the batch. -/
theorem C8_file_format_error_swallowed (w : World) (store : DefStore) (fuel : Nat)
    (c : TcCache) (path : List Char) :
    (cacheGet c (absPath w.cwd path) = none →
      w.dirList (absPath w.cwd path) = none →
      w.isFile (absPath w.cwd path) = true →
      loadTestFile w.fs store (absPath w.cwd path) = .error .fileFormatError →
      loadTestcasesPath w store (fuel + 1) c path =
        .ok ([], cacheSet c (absPath w.cwd path) [])) ∧
    (∀ e, cacheGet c (absPath w.cwd path) = none →
      w.dirList (absPath w.cwd path) = none →
      w.isFile (absPath w.cwd path) = true →
      loadTestFile w.fs store (absPath w.cwd path) = .error e →
      e ≠ .fileFormatError →
      loadTestcasesPath w store (fuel + 1) c path = .error e) ∧
    (∀ (c' : TcCache) (rest : List (List Char)),
      loadTestcasesPath w store fuel c path = .ok ([], c') →
      loadTestcasesList w store fuel c (path :: rest) =
        loadTestcasesList w store fuel c' rest) ∧
    (∀ (e : LoadErr) (rest : List (List Char)),
      loadTestcasesPath w store fuel c path = .error e →
      loadTestcasesList w store fuel c (path :: rest) = .error e) := by
  refine ⟨?_, ?_, ?_, ?_⟩
  · intro hcache hdir hfile hload
    rw [loadTestcasesPath]
    simp only [hcache, hdir, hload]
    rw [if_pos hfile]
  · intro e hcache hdir hfile hload hne
    cases e with
    | fileFormatError => exact absurd rfl hne
    | _ =>
      rw [loadTestcasesPath]
      simp only [hcache, hdir, hload]
      rw [if_pos hfile]
  · intro c' rest hpath
    show loadTestcasesListGo _ c (path :: rest) = loadTestcasesListGo _ c' rest
    rw [loadTestcasesListGo]
    simp only [hpath]
    cases hgo : loadTestcasesListGo
        (fun c' p' => loadTestcasesPath w store fuel c' p') c' rest with
    | error e => rfl
    | ok pr => rfl
  · intro e rest hpath
    show loadTestcasesListGo _ c (path :: rest) = .error e
    rw [loadTestcasesListGo]
    simp only [hpath]

/-- A world with one directory containing one well-formed and one
malformed testcase file. -/
def c8World : World :=
  ⟨[(str "/c/t/good.yml", .yamlData (.vlist [.vdict [(str "test",
      .vdict [(str "name", .vstr (str "n")),
              (str "request", .vdict [(str "url", .vstr (str "/u"))])])]])),
    (str "/c/t/bad.yml", .yamlData .vnone)],
   [(str "/c/t", [str "/c/t/good.yml", str "/c/t/bad.yml"])],
   str "/c"⟩

/-- Witness for C8: the malformed file contributes `[]` and the batch of
two files still yields the good file's testset. -/
theorem C8_swallow_witness :
    loadTestcasesPath c8World ⟨[], []⟩ 1 [] (str "t/bad.yml") =
      .ok ([], cacheSet [] (str "/c/t/bad.yml") []) ∧
    (match loadTestcasesList c8World ⟨[], []⟩ 1 []
        [str "t/good.yml", str "t/bad.yml"] with
     | .ok (ts, _) => ts.length
     | .error _ => 0) = 1 := by
  constructor
  · exact (C8_file_format_error_swallowed c8World ⟨[], []⟩ 0 [] (str "t/bad.yml")).1
      rfl rfl rfl rfl
  · rfl

/-- C9 — the per-path cache of `load_testcases`: a cached absolute path is
answered from the cache alone (for every file system, definition store and
fuel with the same working directory, and with the cache left untouched —
first write wins); a successful resolution always leaves its result in the
cache under the absolute path; hence resolving the same absolute path
again, in any later world sharing the working directory, returns the first
result and changes nothing. -/
theorem C9_cache_idempotent :
    (∀ (fuel : Nat) (w : World) (store : DefStore) (c : TcCache) (p : List Char)
        (v : List Testset),
      cacheGet c (absPath w.cwd p) = some v →
      loadTestcasesPath w store fuel c p = .ok (v, c)) ∧
    (∀ (fuel : Nat) (w : World) (store : DefStore) (c : TcCache) (p : List Char)
        (r : List Testset) (c' : TcCache),
      loadTestcasesPath w store fuel c p = .ok (r, c') →
      cacheGet c' (absPath w.cwd p) = some r) ∧
    (∀ (fuel fuel' : Nat) (w w' : World) (store store' : DefStore) (c : TcCache)
        (p p' : List Char) (r : List Testset) (c' : TcCache),
      absPath w'.cwd p' = absPath w.cwd p →
      loadTestcasesPath w store fuel c p = .ok (r, c') →
      loadTestcasesPath w' store' fuel' c' p' = .ok (r, c')) := by
  have part1 : ∀ (fuel : Nat) (w : World) (store : DefStore) (c : TcCache) (p : List Char)
      (v : List Testset),
      cacheGet c (absPath w.cwd p) = some v →
      loadTestcasesPath w store fuel c p = .ok (v, c) := by
    intro fuel w store c p v hcache
    rw [loadTestcasesPath.eq_def]
    simp only [hcache]
  have part2 : ∀ (fuel : Nat) (w : World) (store : DefStore) (c : TcCache) (p : List Char)
      (r : List Testset) (c' : TcCache),
      loadTestcasesPath w store fuel c p = .ok (r, c') →
      cacheGet c' (absPath w.cwd p) = some r := by
    intro fuel w store c p r c' h
    rw [loadTestcasesPath.eq_def] at h
    cases hcache : cacheGet c (absPath w.cwd p) with
    | some v =>
      simp only [hcache] at h
      cases h
      exact hcache
    | none =>
      simp only [hcache] at h
      cases fuel with
      | zero => cases h
      | succ fuel =>
        cases hdir : w.dirList (absPath w.cwd p) with
        | some filesList =>
          simp only [hdir] at h
          cases hgo : loadTestcasesListGo
              (fun c' p' => loadTestcasesPath w store fuel c' p') c (dedupPaths filesList) with
          | error e => rw [hgo] at h; cases h
          | ok pr =>
            rw [hgo] at h
            cases h
            exact cacheGet_cacheSet_self _ _ _
        | none =>
          simp only [hdir] at h
          by_cases hfile : w.isFile (absPath w.cwd p) = true
          · rw [if_pos hfile] at h
            cases hload : loadTestFile w.fs store (absPath w.cwd p) with
            | ok testcase =>
              simp only [hload] at h
              cases h
              exact cacheGet_cacheSet_self _ _ _
            | error e =>
              cases e <;> simp only [hload] at h <;> cases h
              exact cacheGet_cacheSet_self _ _ _
          · rw [if_neg hfile] at h
            cases h
  refine ⟨part1, part2, ?_⟩
  intro fuel fuel' w w' store store' c p p' r c' habs h
  have hcache := part2 fuel w store c p r c' h
  exact part1 fuel' w' store' c' p' r (by rw [habs]; exact hcache)

/-- Witness for C9: after resolving a file once, a second resolution with
a different (even empty) file system returns the cached result unchanged. -/
theorem C9_cache_witness :
    loadTestcasesPath c8World ⟨[], []⟩ 1 [] (str "t/bad.yml") =
      .ok ([], [(str "/c/t/bad.yml", [])]) ∧
    loadTestcasesPath ⟨[], [], str "/c"⟩ ⟨[], []⟩ 7 [(str "/c/t/bad.yml", [])]
      (str "/c/t/bad.yml") = .ok ([], [(str "/c/t/bad.yml", [])]) := by
  have h1 : loadTestcasesPath c8World ⟨[], []⟩ 1 [] (str "t/bad.yml") =
      .ok ([], [(str "/c/t/bad.yml", [])]) := rfl
  refine ⟨h1, ?_⟩
  exact C9_cache_idempotent.2.2 1 7 c8World ⟨[], [], str "/c"⟩ ⟨[], []⟩ ⟨[], []⟩
    [] (str "t/bad.yml") (str "/c/t/bad.yml") [] [(str "/c/t/bad.yml", [])] rfl h1

end HttpRunner
